import Mathlib

/-
Verification of the TXCertbot compact config validator (txc_validator.go).

The development proceeds in three layers:
 1. a small regular-expression engine (character classes, Brzozowski
    derivatives, an inductive matching semantics, and their equivalence),
    modelling the fragment of Go's `regexp` package that the validator
    exercises;
 2. a parser from pattern strings to regex ASTs, modelling
    `regexp.Compile` on the anchored `^...$` patterns the validator
    constructs (patterns outside the supported fragment map to `none`,
    which models a failed compilation: the Go code discards the error and
    would dereference a nil `*Regexp`);
 3. the validator functions themselves (`validateCertMode`,
    `validateSite`, `validateSGs`, `validateTenants`, ...), translated
    from the Go source.  Go panics (out-of-range string slicing, method
    calls on a nil regexp) are modelled with `Option`, `none` standing
    for an aborted run.
-/

/-- First-order description of a character class, as used by Go's
`regexp` syntax: single characters, ranges, unions, complements.
Keeping this first-order (rather than using `Char → Bool` functions)
makes equality of parsed regexes decidable. -/
inductive CharClass where
  | empty : CharClass
  | single : Char → CharClass
  | range : Char → Char → CharClass
  | union : CharClass → CharClass → CharClass
  | compl : CharClass → CharClass
deriving DecidableEq

/-- Membership test for a character class; ranges compare code points,
as Go does for runes. -/
def evalClass : CharClass → Char → Bool
  | .empty, _ => false
  | .single a, c => c = a
  | .range lo hi, c => decide (lo.toNat ≤ c.toNat) && decide (c.toNat ≤ hi.toNat)
  | .union a b, c => evalClass a c || evalClass b c
  | .compl a, c => !(evalClass a c)

/-- Go's `\s`: the ASCII whitespace characters TAB, LF, FF, CR, space. -/
def goSpace : CharClass :=
  .union (.range (Char.ofNat 9) (Char.ofNat 10))
    (.union (.range (Char.ofNat 12) (Char.ofNat 13)) (.single ' '))

/-- Go's `\w`: `[0-9A-Za-z_]`. -/
def goWord : CharClass :=
  .union (.range '0' '9') (.union (.range 'A' 'Z') (.union (.range 'a' 'z') (.single '_')))

/-- Regular expressions over `Char`, the target of the pattern parser. -/
inductive Regex where
  | fail : Regex
  | eps : Regex
  | pred : CharClass → Regex
  | alt : Regex → Regex → Regex
  | cat : Regex → Regex → Regex
  | star : Regex → Regex
deriving DecidableEq

/-- Inductive matching semantics: `RMatches r l` holds when the regular
expression `r` matches exactly the character list `l`. -/
inductive RMatches : Regex → List Char → Prop where
  | eps : RMatches .eps []
  | pred {cls : CharClass} {c : Char} : evalClass cls c = true → RMatches (.pred cls) [c]
  | altL {r1 r2 : Regex} {l : List Char} : RMatches r1 l → RMatches (.alt r1 r2) l
  | altR {r1 r2 : Regex} {l : List Char} : RMatches r2 l → RMatches (.alt r1 r2) l
  | cat {r1 r2 : Regex} {l1 l2 : List Char} :
      RMatches r1 l1 → RMatches r2 l2 → RMatches (.cat r1 r2) (l1 ++ l2)
  | starNil {r : Regex} : RMatches (.star r) []
  | starCons {r : Regex} {c : Char} {l1 l2 : List Char} :
      RMatches r (c :: l1) → RMatches (.star r) l2 → RMatches (.star r) (c :: l1 ++ l2)

/-- Nullability: does the regex match the empty string? -/
def nullable : Regex → Bool
  | .fail => false
  | .eps => true
  | .pred _ => false
  | .alt a b => nullable a || nullable b
  | .cat a b => nullable a && nullable b
  | .star _ => true

/-- Brzozowski derivative of a regex with respect to one character. -/
def rderiv : Regex → Char → Regex
  | .fail, _ => .fail
  | .eps, _ => .fail
  | .pred cls, c => if evalClass cls c then .eps else .fail
  | .alt a b, c => .alt (rderiv a c) (rderiv b c)
  | .cat a b, c =>
      if nullable a then .alt (.cat (rderiv a c) b) (rderiv b c) else .cat (rderiv a c) b
  | .star r, c => .cat (rderiv r c) (.star r)

/-- Executable matcher on character lists, by iterated derivatives. -/
def rmatchL : Regex → List Char → Bool
  | r, [] => nullable r
  | r, c :: l => rmatchL (rderiv r c) l

/-- Executable matcher on strings; this models `reg.MatchString(s)` for
the fully anchored `^...$` regexes the validator builds (for those,
Go's substring search is equivalent to a whole-string match). -/
def rmatch (r : Regex) (s : String) : Bool := rmatchL r s.data


theorem rmatches_eps_iff {l : List Char} : RMatches .eps l ↔ l = [] := by
  constructor
  · intro h; cases h; rfl
  · rintro rfl; exact .eps

theorem rmatches_pred_iff {cls : CharClass} {l : List Char} :
    RMatches (.pred cls) l ↔ ∃ c, l = [c] ∧ evalClass cls c = true := by
  constructor
  · intro h; cases h with
    | pred hc => exact ⟨_, rfl, hc⟩
  · rintro ⟨c, rfl, hc⟩; exact .pred hc

theorem rmatches_alt_iff {r1 r2 : Regex} {l : List Char} :
    RMatches (.alt r1 r2) l ↔ RMatches r1 l ∨ RMatches r2 l := by
  constructor
  · intro h; cases h with
    | altL h => exact Or.inl h
    | altR h => exact Or.inr h
  · rintro (h | h)
    · exact .altL h
    · exact .altR h

theorem rmatches_cat_iff {r1 r2 : Regex} {l : List Char} :
    RMatches (.cat r1 r2) l ↔ ∃ l1 l2, l = l1 ++ l2 ∧ RMatches r1 l1 ∧ RMatches r2 l2 := by
  constructor
  · intro h; cases h with
    | cat h1 h2 => exact ⟨_, _, rfl, h1, h2⟩
  · rintro ⟨l1, l2, rfl, h1, h2⟩; exact .cat h1 h2

theorem rmatches_star_inv {r : Regex} {l : List Char} (h : RMatches (.star r) l) :
    l = [] ∨ ∃ c l1 l2, l = c :: l1 ++ l2 ∧ RMatches r (c :: l1) ∧ RMatches (.star r) l2 := by
  cases h with
  | starNil => exact Or.inl rfl
  | starCons h1 h2 => exact Or.inr ⟨_, _, _, rfl, h1, h2⟩

theorem nullable_iff {r : Regex} : nullable r = true ↔ RMatches r [] := by
  induction r with
  | fail =>
      constructor
      · intro h; simp [nullable] at h
      · intro h; cases h
  | eps =>
      constructor
      · intro _; exact .eps
      · intro _; simp [nullable]
  | pred cls =>
      constructor
      · intro h; simp [nullable] at h
      · intro h; cases h
  | alt a b iha ihb =>
      rw [show RMatches (.alt a b) [] ↔ _ from rmatches_alt_iff]
      simp only [nullable, Bool.or_eq_true, iha, ihb]
  | cat a b iha ihb =>
      rw [show RMatches (.cat a b) [] ↔ _ from rmatches_cat_iff]
      simp only [nullable, Bool.and_eq_true, iha, ihb]
      constructor
      · rintro ⟨h1, h2⟩; exact ⟨[], [], rfl, h1, h2⟩
      · rintro ⟨l1, l2, hl, h1, h2⟩
        rcases List.append_eq_nil.mp hl.symm with ⟨rfl, rfl⟩
        exact ⟨h1, h2⟩
  | star r ih =>
      simp only [nullable, true_iff]
      exact .starNil

theorem rderiv_sound {r : Regex} {c : Char} {l : List Char}
    (h : RMatches (rderiv r c) l) : RMatches r (c :: l) := by
  induction r generalizing l with
  | fail => cases h
  | eps => cases h
  | pred cls =>
      by_cases hc : evalClass cls c = true
      · rw [rderiv, if_pos hc] at h
        cases h
        exact .pred hc
      · rw [rderiv, if_neg hc] at h
        cases h
  | alt a b iha ihb =>
      rcases rmatches_alt_iff.mp h with h | h
      · exact .altL (iha h)
      · exact .altR (ihb h)
  | cat a b iha ihb =>
      by_cases hn : nullable a = true
      · rw [rderiv, if_pos hn] at h
        rcases rmatches_alt_iff.mp h with h | h
        · rcases rmatches_cat_iff.mp h with ⟨l1, l2, rfl, h1, h2⟩
          exact (List.cons_append c l1 l2) ▸ RMatches.cat (iha h1) h2
        · have : RMatches (.cat a b) ([] ++ (c :: l)) :=
            RMatches.cat (nullable_iff.mp hn) (ihb h)
          simpa using this
      · rw [rderiv, if_neg hn] at h
        rcases rmatches_cat_iff.mp h with ⟨l1, l2, rfl, h1, h2⟩
        exact (List.cons_append c l1 l2) ▸ RMatches.cat (iha h1) h2
  | star r ih =>
      rw [rderiv] at h
      rcases rmatches_cat_iff.mp h with ⟨l1, l2, rfl, h1, h2⟩
      exact (List.cons_append c l1 l2) ▸ RMatches.starCons (ih h1) h2

theorem rderiv_complete {r : Regex} {c : Char} {l : List Char}
    (h : RMatches r (c :: l)) : RMatches (rderiv r c) l := by
  induction r generalizing l with
  | fail => cases h
  | eps => exact absurd (rmatches_eps_iff.mp h) (by simp)
  | pred cls =>
      rcases rmatches_pred_iff.mp h with ⟨c', hc', heval⟩
      have h1 : c' = c := by
        have := congrArg (List.head? ·) hc'
        simpa using this.symm
      have h2 : l = [] := by
        have := congrArg (List.tail ·) hc'
        simpa using this
      subst h1; subst h2
      rw [rderiv, if_pos heval]
      exact .eps
  | alt a b iha ihb =>
      rcases rmatches_alt_iff.mp h with h | h
      · exact rmatches_alt_iff.mpr (Or.inl (iha h))
      · exact rmatches_alt_iff.mpr (Or.inr (ihb h))
  | cat a b iha ihb =>
      rcases rmatches_cat_iff.mp h with ⟨l1, l2, hl, h1, h2⟩
      cases l1 with
      | nil =>
          have hn : nullable a = true := nullable_iff.mpr h1
          rw [rderiv, if_pos hn]
          refine rmatches_alt_iff.mpr (Or.inr (ihb ?_))
          have hl2 : l2 = c :: l := by simpa using hl.symm
          exact hl2 ▸ h2
      | cons c' l1' =>
          rw [List.cons_append] at hl
          injection hl with hc hll
          subst hc
          have hd : RMatches (.cat (rderiv a c) b) (l1' ++ l2) :=
            RMatches.cat (iha h1) h2
          by_cases hn : nullable a = true
          · rw [rderiv, if_pos hn]
            exact rmatches_alt_iff.mpr (Or.inl (hll ▸ hd))
          · rw [rderiv, if_neg hn]
            exact hll ▸ hd
  | star r ih =>
      rcases rmatches_star_inv h with hnil | ⟨c', l1, l2, hl, h1, h2⟩
      · cases hnil
      · rw [List.cons_append] at hl
        injection hl with hc hll
        subst hc
        rw [rderiv]
        exact rmatches_cat_iff.mpr ⟨l1, l2, hll, ih h1, h2⟩

theorem rmatchL_iff : ∀ (l : List Char) (r : Regex), rmatchL r l = true ↔ RMatches r l := by
  intro l
  induction l with
  | nil => intro r; exact nullable_iff
  | cons c l ih =>
      intro r
      rw [rmatchL, ih]
      exact ⟨rderiv_sound, rderiv_complete⟩

theorem rmatch_iff {r : Regex} {s : String} : rmatch r s = true ↔ RMatches r s.data :=
  rmatchL_iff s.data r

theorem rmatches_star_pred_all {cls : CharClass} :
    ∀ (n : Nat) (l : List Char), l.length ≤ n →
      RMatches (.star (.pred cls)) l → ∀ c ∈ l, evalClass cls c = true := by
  intro n
  induction n with
  | zero =>
      intro l hl _ c hc
      rcases List.length_eq_zero.mp (Nat.le_zero.mp hl) with rfl
      simp at hc
  | succ n ih =>
      intro l hl h c hc
      rcases rmatches_star_inv h with rfl | ⟨c', l1, l2, rfl, h1, h2⟩
      · simp at hc
      · rcases rmatches_pred_iff.mp h1 with ⟨c'', hc'', heval⟩
        have hc1 : c'' = c' := by
          injection hc'' with h1' _
          exact h1'.symm
        have hl1 : l1 = [] := by
          injection hc'' with _ h2'
        subst hc1; subst hl1
        rcases List.mem_cons.mp (by simpa using hc) with rfl | hcl
        · exact heval
        · refine ih l2 ?_ h2 c hcl
          simp at hl
          omega

theorem rmatches_star_pred_iff {cls : CharClass} {l : List Char} :
    RMatches (.star (.pred cls)) l ↔ ∀ c ∈ l, evalClass cls c = true := by
  constructor
  · exact fun h => rmatches_star_pred_all l.length l (Nat.le_refl _) h
  · intro h
    induction l with
    | nil => exact .starNil
    | cons c l ih =>
        have : RMatches (.star (.pred cls)) (c :: [] ++ l) :=
          .starCons (.pred (h c (by simp))) (ih (fun d hd => h d (by simp [hd])))
        simpa using this

theorem rmatches_plus_pred_iff {cls : CharClass} {l : List Char} :
    RMatches (.cat (.pred cls) (.star (.pred cls))) l ↔
      l ≠ [] ∧ ∀ c ∈ l, evalClass cls c = true := by
  rw [rmatches_cat_iff]
  constructor
  · rintro ⟨l1, l2, rfl, h1, h2⟩
    rcases rmatches_pred_iff.mp h1 with ⟨c, rfl, heval⟩
    refine ⟨by simp, ?_⟩
    intro d hd
    rcases List.mem_append.mp hd with hd | hd
    · rcases List.mem_singleton.mp hd with rfl
      exact heval
    · exact (rmatches_star_pred_iff.mp h2) d hd
  · rintro ⟨hne, h⟩
    cases l with
    | nil => exact absurd rfl hne
    | cons c l =>
        exact ⟨[c], l, rfl, .pred (h c (by simp)),
          rmatches_star_pred_iff.mpr (fun d hd => h d (by simp [hd]))⟩

/-- Literal regex: the concatenation of single-character predicates that
matches exactly the given character list.  This is the shape the parser
produces for a sequence of literal characters. -/
def litRegex : List Char → Regex
  | [] => .eps
  | c :: cs => .cat (.pred (.single c)) (litRegex cs)

theorem rmatches_lit_iff {cs l : List Char} : RMatches (litRegex cs) l ↔ l = cs := by
  induction cs generalizing l with
  | nil => simp [litRegex, rmatches_eps_iff]
  | cons c cs ih =>
      simp only [litRegex, rmatches_cat_iff]
      constructor
      · rintro ⟨l1, l2, rfl, h1, h2⟩
        rcases rmatches_pred_iff.mp h1 with ⟨c', rfl, heval⟩
        have : c' = c := by simpa [evalClass] using heval
        subst this
        simp [ih.mp h2]
      · rintro rfl
        exact ⟨[c], cs, rfl, .pred (by simp [evalClass]), ih.mpr rfl⟩

/-- Escape handling outside character classes, per Go regexp syntax:
`\.` and other escaped punctuation are literals, `\s \S \w \W \d \D`
are the Perl classes, and escaping a letter or digit without a defined
meaning is a compile error (`none`).  Anchor-like escapes (`\A`, `\b`,
`\z`) and octal/backreference escapes are outside the modelled fragment
and also map to `none`. -/
def escClass : Char → Option CharClass
  | 'S' => some (.compl goSpace)
  | 's' => some goSpace
  | 'w' => some goWord
  | 'W' => some (.compl goWord)
  | 'd' => some (.range '0' '9')
  | 'D' => some (.compl (.range '0' '9'))
  | c => if c.isAlpha || c.isDigit then none else some (.single c)

/-- Parser for the items of a character class `[...]`, accumulating a
union.  Handles single characters, ranges `a-z` (rejecting inverted
ranges, as Go does), escapes, and a trailing literal `-`.  Requires at
least one item before the closing bracket, as Go's parser does. -/
def parseClassItems : Nat → List Char → CharClass → Bool → Option (CharClass × List Char)
  | 0, _, _, _ => none
  | _ + 1, [], _, _ => none
  | _ + 1, ']' :: rest, acc, hasItem => if hasItem then some (acc, rest) else none
  | _ + 1, ['\\'], _, _ => none
  | f + 1, '\\' :: c :: rest2, acc, _ =>
      (escClass c).bind (fun cls => parseClassItems f rest2 (.union acc cls) true)
  | f + 1, c :: '-' :: d :: rest2, acc, _ =>
      if d = ']' then parseClassItems f ('-' :: d :: rest2) (.union acc (.single c)) true
      else if decide (c.toNat ≤ d.toNat) then
        parseClassItems f rest2 (.union acc (.range c d)) true
      else none
  | f + 1, c :: rest, acc, _ => parseClassItems f rest (.union acc (.single c)) true

/-- Parser for a character class after its opening `[`, handling the
optional leading negation `^`; every step of the item parser consumes at
least one character, so sizing its fuel by the input length is exact. -/
def parseClass : List Char → Option (Regex × List Char)
  | '^' :: rest =>
      (parseClassItems (rest.length + 1) rest .empty false).map
        (fun p => (.pred (.compl p.1), p.2))
  | rest =>
      (parseClassItems (rest.length + 1) rest .empty false).map
        (fun p => (.pred p.1, p.2))

/-- After a repetition operator, Go accepts one `?` (the non-greedy
marker, which does not change the matched language) and rejects a
further stacked repetition operator. -/
def applyLazy (r : Regex) : List Char → Option (Regex × List Char)
  | '?' :: rest => some (r, rest)
  | '*' :: _ => none
  | '+' :: _ => none
  | rest => some (r, rest)

/-- Postfix repetition operators `*`, `+`, `?` applied to an atom. -/
def applyPostfix (r : Regex) : List Char → Option (Regex × List Char)
  | '*' :: rest => applyLazy (.star r) rest
  | '+' :: rest => applyLazy (.cat r (.star r)) rest
  | '?' :: rest => applyLazy (.alt .eps r) rest
  | rest => some (r, rest)

/-- Metacharacters that cannot stand alone as a literal atom in the
modelled fragment.  `*`, `+`, `?` at atom position are Go's
missing-repeat-argument errors; `|`, `^`, `$` and the repetition braces
are valid Go syntax outside the modelled fragment and are conservatively
mapped to a failed compilation. -/
def atomMeta : Char → Bool
  | '*' => true
  | '+' => true
  | '?' => true
  | '|' => true
  | '^' => true
  | '$' => true
  | '\x7b' => true
  | '\x7d' => true
  | _ => false

mutual

/-- Parse a concatenation of items, stopping at `)` or at the end of
input; the fuel argument bounds the recursion depth. -/
def parseSeq : Nat → List Char → Option (Regex × List Char)
  | 0, _ => none
  | _ + 1, [] => some (.eps, [])
  | f + 1, c :: rest =>
      if c = ')' then some (.eps, c :: rest)
      else
        match parseItem f (c :: rest) with
        | none => none
        | some (r1, rest1) =>
            match parseSeq f rest1 with
            | none => none
            | some (r2, rest2) => some (.cat r1 r2, rest2)

/-- Parse one atom with its optional postfix repetition operator. -/
def parseItem : Nat → List Char → Option (Regex × List Char)
  | 0, _ => none
  | f + 1, chars =>
      match parseAtom f chars with
      | none => none
      | some (r, rest) => applyPostfix r rest

/-- Parse one atom: a group, a character class, an escape, `.`, or a
literal character. -/
def parseAtom : Nat → List Char → Option (Regex × List Char)
  | 0, _ => none
  | _ + 1, [] => none
  | f + 1, '(' :: rest =>
      match parseSeq f rest with
      | none => none
      | some (r, rest1) =>
          match rest1 with
          | ')' :: rest2 => some (r, rest2)
          | _ => none
  | _ + 1, '[' :: rest => parseClass rest
  | _ + 1, '\\' :: rest =>
      match rest with
      | [] => none
      | c :: rest2 => (escClass c).map (fun cls => (.pred cls, rest2))
  | _ + 1, c :: rest =>
      if c = '.' then some (.pred (.compl (.single (Char.ofNat 10))), rest)
      else if atomMeta c then none
      else some (.pred (.single c), rest)

end

/-- Model of `regexp.Compile` for the patterns the validator builds:
all of them are anchored as `^body$`, for which `MatchString` is a
whole-string match of `body`.  The supported body fragment covers
literals, escapes, character classes, groups, `* + ?` (with the
non-greedy `?` suffix) and enough error cases to mirror Go's rejection
of stacked repetition operators and malformed classes.  Valid Go
patterns outside the fragment (alternation `|`, interior anchors,
repetition braces, perl anchor escapes) also map to `none`.  A `none`
result models a `Compile` outcome that the Go caller cannot use: the
source ignores the returned error, so a subsequent `MatchString` call
would dereference a nil pointer and panic. -/
def regexCompile (pattern : String) : Option Regex :=
  match pattern.data with
  | '^' :: rest =>
      match rest.getLast? with
      | some '$' =>
          (match parseSeq (2 * rest.length + 8) rest.dropLast with
           | some (r, []) => some r
           | _ => none)
      | _ => none
  | _ => none

/-- Model of Go string slicing `s[i:]`, which panics when `i` exceeds the
string's length (`none`).  The model slices characters rather than bytes;
at the validator's only call site the sliced string has just passed the
wildcard cert-mode pattern, so it starts with the ASCII prefix `*.` and
the two views agree. -/
def goSlice (s : String) (i : Nat) : Option String :=
  if i ≤ s.data.length then some ⟨s.data.drop i⟩ else none

/-- Model of `strings.ReplaceAll(s, ".", "\\.")` from `getCertModeSiteRegex`. -/
def escapeDots (s : String) : String :=
  ⟨s.data.flatMap (fun c => if c = '.' then ['\\', '.'] else [c])⟩

/-- Pattern source of `getCertModeRegex` (also printed by `.String()` in
the cert-mode error message). -/
def certModePatternStr : String := "^\\*\\.\\S+\\.\\w+$"

/-- Pattern source of `getSimpleSiteRegex` (also printed by `.String()`
in the site error message). -/
def simpleSitePatternStr : String := "^\\S+\\.\\w+$"

/-- The wildcard cert-mode regex `^\*\.\S+\.\w+$`.  The fixed pattern
compiles (a fact checked by `getCertModeRegex_eq` below), so the `.getD`
default is never used. -/
def getCertModeRegex : Regex := (regexCompile certModePatternStr).getD .fail

/-- The default site regex `^\S+\.\w+$`; its fixed pattern compiles. -/
def getSimpleSiteRegex : Regex := (regexCompile simpleSitePatternStr).getD .fail

/-- The pattern string `getCertModeSiteRegex` builds around the escaped
mode suffix. -/
def siteRegexPattern (fixedMode : String) : String :=
  "^([a-zA-Z0-9-]+\\.)?" ++ fixedMode ++ "$"

/-- Model of `getCertModeSiteRegex`: slice off the leading `*.` (outer
`Option`: Go panics when the slice is out of range) and compile the
derived pattern (inner `Option`: Go ignores the compile error, leaving a
nil regex whose later use panics). -/
def getCertModeSiteRegex (certMode : String) : Option (Option Regex) :=
  (goSlice certMode 2).map (fun t => regexCompile (siteRegexPattern (escapeDots t)))

def getAllowedProviders : List String :=
  ["letsencrypt", "buypass", "zerossl", "sslcom",
   "google", "google_test", "buypass_test", "letsencrypt_test"]

def getAllowedCertTypes : List String := ["ec-256", "ec-384", "2048", "3072", "4096"]

def getAllowedCertModes : List String := ["san", "classic"]

/-- Model of `validateCertMode`, mirroring the Go switch case order. -/
def validateCertMode (certMode : String) : Bool :=
  if certMode = "" then true
  else if getAllowedCertModes.contains certMode then true
  else if rmatch getCertModeRegex certMode then true
  else false

/-- Model of `validateSite`.  `some b` is the Go return value; `none`
models a panic inside the first switch case (out-of-range slice or nil
regex dereference), which can only be reached when the wildcard guard
holds, because Go's `&&` is short-circuiting. -/
def validateSite (site : String) (certMode : String) : Option Bool :=
  if rmatch getCertModeRegex certMode then
    match getCertModeSiteRegex certMode with
    | none => none
    | some none => none
    | some (some re) => some (rmatch re site)
  else some (rmatch getSimpleSiteRegex site)

def validateCertProvider (certProvider : String) : Bool :=
  if certProvider = "" then true
  else if getAllowedProviders.contains certProvider then true
  else false

def validateCertType (certType : String) : Bool :=
  if certType = "" then true
  else if getAllowedCertTypes.contains certType then true
  else false

/-- The `cert_provider_creds` bundle; Go's `*EABCredentials` is modelled
as `Option EABCredentials` (`none` for a nil pointer / absent key). -/
structure EABCredentials where
  email : String
  kid : String
  hmacKey : String
deriving DecidableEq

/-- Model of `validateCertProviderCredentials`: valid when absent, or
when all three sub-fields are non-empty. -/
def validateCertProviderCredentials : Option EABCredentials → Bool
  | none => true
  | some c => decide (c.email ≠ "") && decide (c.hmacKey ≠ "") && decide (c.kid ≠ "")

structure SiteGroupStruct where
  groupName : String
  sites : List String
  certMode : String
  certProvider : String
  certType : String
  certProviderCredentials : Option EABCredentials
deriving DecidableEq

structure TenantStruct where
  tenant : String
  env : String
  siteGroups : List SiteGroupStruct
deriving DecidableEq

def prepareSGErrorMessage (checkType : String) (gotValue : String) (expectedValue : String) :
    String :=
  "Incorrect SG field '" ++ checkType ++ "' value: '" ++ gotValue ++
    "'. Value must be one of: " ++ expectedValue

def groupNameError : String := "SG field 'group_name' not found or empty"

def sitesEmptyError : String := "Field 'sites' not found or empty"

def dupSiteError (site : String) : String := "Duplicate found for site '" ++ site ++ "'"

def credsFormatError : String := "Field 'cert_provider_creds' has incorrect format"

def certModeError (certMode : String) : String :=
  prepareSGErrorMessage "cert_mode" certMode
    (String.intercalate ", " getAllowedCertModes ++ ", or regex '" ++ certModePatternStr ++ "'")

def certProviderError (certProvider : String) : String :=
  prepareSGErrorMessage "cert_provider" certProvider
    (String.intercalate ", " getAllowedProviders)

def certTypeError (certType : String) : String :=
  prepareSGErrorMessage "cert_type" certType (String.intercalate ", " getAllowedCertTypes)

def siteValueError (site : String) (certMode : String) : String :=
  "Incorrect site field value: '" ++ site ++ "'. Value must correspond to site regex: '" ++
    simpleSitePatternStr ++ "' and cert_mode '" ++ certMode ++ "'"

def tenantEmptyError : String := "Field 'tenant' not found or empty"

def envEmptyError : String := "Field 'env' not found or empty"

def siteGroupsEmptyError : String := "Field 'site_groups' not found or empty"

/-- The duplicate-detection loop of `validateSGs` over one group's
`sites`, threading the tenant-wide seen-set (`tenantSites`, Go's
`StringSet` map used only for membership).  Returns the updated set and
the duplicate errors in site order. -/
def addSites : List String → List String → List String × List String
  | tenantSites, [] => (tenantSites, [])
  | tenantSites, site :: rest =>
      if site ∈ tenantSites then
        let p := addSites tenantSites rest
        (p.1, dupSiteError site :: p.2)
      else addSites (tenantSites ++ [site]) rest

/-- The per-site `validateSite` loop at the end of the `validateSGs`
body; `none` propagates a panic raised for some site. -/
def siteChecks (certMode : String) : List String → Option (List String)
  | [] => some []
  | site :: rest =>
      match validateSite site certMode with
      | none => none
      | some ok =>
          (siteChecks certMode rest).map
            (fun es => (if ok then [] else [siteValueError site certMode]) ++ es)

/-- One iteration of the `validateSGs` loop body: all checks for a single
site group, in the order the Go code appends them (group name, sites
empty/duplicates, cert mode, provider, type, credentials, per-site
checks).  Returns the updated tenant-wide seen-set and the errors. -/
def validateSG (tenantSites : List String) (sg : SiteGroupStruct) :
    Option (List String × List String) :=
  let e1 := if sg.groupName = "" then [groupNameError] else []
  let p := if sg.sites.isEmpty then (tenantSites, [sitesEmptyError])
           else addSites tenantSites sg.sites
  let e3 := if validateCertMode sg.certMode then [] else [certModeError sg.certMode]
  let e4 := if validateCertProvider sg.certProvider then []
            else [certProviderError sg.certProvider]
  let e5 := if validateCertType sg.certType then [] else [certTypeError sg.certType]
  let e6 := if validateCertProviderCredentials sg.certProviderCredentials then []
            else [credsFormatError]
  match siteChecks sg.certMode sg.sites with
  | none => none
  | some e7 => some (p.1, e1 ++ p.2 ++ e3 ++ e4 ++ e5 ++ e6 ++ e7)

/-- The `validateSGs` loop over all site groups, threading `tenantSites`
(created once per tenant) and concatenating each group's errors. -/
def validateSGsAux (tenantSites : List String) :
    List SiteGroupStruct → Option (List String × List String)
  | [] => some (tenantSites, [])
  | sg :: rest =>
      match validateSG tenantSites sg with
      | none => none
      | some (ts2, es) =>
          match validateSGsAux ts2 rest with
          | none => none
          | some (ts3, es2) => some (ts3, es ++ es2)

/-- Model of `validateSGs`: start from an empty tenant-wide seen-set and
return the appended error messages (`none` models a panic aborting the
process). -/
def validateSGs (sgs : List SiteGroupStruct) : Option (List String) :=
  (validateSGsAux [] sgs).map (fun p => p.2)

/-- One iteration of the `validateTenants` loop: tenant-level required
fields, then — unless `site_groups` is empty, which short-circuits with
its own error (`continue`) — the site-group checks. -/
def validateTenant (t : TenantStruct) : Option (List String) :=
  let e1 := if t.tenant = "" then [tenantEmptyError] else []
  let e2 := if t.env = "" then [envEmptyError] else []
  if t.siteGroups.isEmpty then some (e1 ++ e2 ++ [siteGroupsEmptyError])
  else (validateSGs t.siteGroups).map (fun es => e1 ++ e2 ++ es)

/-- Model of `validateTenants`, the document validator: every tenant
record is processed in order and all errors are concatenated. -/
def validateTenants : List TenantStruct → Option (List String)
  | [] => some []
  | t :: rest =>
      match validateTenant t, validateTenants rest with
      | some es, some es2 => some (es ++ es2)
      | _, _ => none

theorem evalClass_compl {p : CharClass} {c : Char} :
    evalClass (.compl p) c = !(evalClass p c) := rfl

theorem rmatches_single_iff {c : Char} {l : List Char} :
    RMatches (.pred (.single c)) l ↔ l = [c] := by
  rw [rmatches_pred_iff]
  constructor
  · rintro ⟨d, rfl, hd⟩
    have : d = c := by simpa [evalClass] using hd
    rw [this]
  · rintro rfl
    exact ⟨c, rfl, by simp [evalClass]⟩

/-- The regex AST that `regexCompile` produces for the wildcard
cert-mode pattern `^\*\.\S+\.\w+$`. -/
def certModeRegexAst : Regex :=
  .cat (.pred (.single '*'))
    (.cat (.pred (.single '.'))
      (.cat (.cat (.pred (.compl goSpace)) (.star (.pred (.compl goSpace))))
        (.cat (.pred (.single '.'))
          (.cat (.cat (.pred goWord) (.star (.pred goWord))) .eps))))

theorem getCertModeRegex_eq : getCertModeRegex = certModeRegexAst := by decide

/-- Shape of the strings accepted by the wildcard cert-mode regex: a
literal `*.` prefix, a non-empty run of non-whitespace characters, a
dot, and a non-empty run of word characters. -/
def wildcardShape (s : String) : Prop :=
  ∃ a b : List Char, s.data = '*' :: '.' :: (a ++ '.' :: b) ∧
    a ≠ [] ∧ (∀ c ∈ a, evalClass goSpace c = false) ∧
    b ≠ [] ∧ (∀ c ∈ b, evalClass goWord c = true)

theorem rmatch_certModeRegex_iff {s : String} :
    rmatch getCertModeRegex s = true ↔ wildcardShape s := by
  rw [getCertModeRegex_eq, rmatch_iff]
  show RMatches certModeRegexAst s.data ↔ _
  unfold certModeRegexAst
  constructor
  · intro h
    rcases rmatches_cat_iff.mp h with ⟨l1, l2, hs, h1, h2⟩
    rcases rmatches_single_iff.mp h1 with rfl
    rcases rmatches_cat_iff.mp h2 with ⟨l3, l4, hs2, h3, h4⟩
    rcases rmatches_single_iff.mp h3 with rfl
    rcases rmatches_cat_iff.mp h4 with ⟨l5, l6, hs4, h5, h6⟩
    rcases rmatches_plus_pred_iff.mp h5 with ⟨hne5, hall5⟩
    rcases rmatches_cat_iff.mp h6 with ⟨l7, l8, hs6, h7, h8⟩
    rcases rmatches_single_iff.mp h7 with rfl
    rcases rmatches_cat_iff.mp h8 with ⟨l9, l10, hs8, h9, h10⟩
    rcases rmatches_plus_pred_iff.mp h9 with ⟨hne9, hall9⟩
    rcases rmatches_eps_iff.mp h10 with rfl
    refine ⟨l5, l9, ?_, hne5, ?_, hne9, hall9⟩
    · subst hs8; subst hs6; subst hs4; subst hs2
      simpa using hs
    · intro c hc
      have h5c := hall5 c hc
      rw [evalClass_compl] at h5c
      simpa using h5c
  · rintro ⟨a, b, hs, hne, ha, hbne, hb⟩
    rw [hs]
    have hmid : RMatches (.cat (.cat (.pred (.compl goSpace)) (.star (.pred (.compl goSpace))))
        (.cat (.pred (.single '.'))
          (.cat (.cat (.pred goWord) (.star (.pred goWord))) .eps))) (a ++ '.' :: b) := by
      refine rmatches_cat_iff.mpr ⟨a, '.' :: b, rfl, ?_, ?_⟩
      · exact rmatches_plus_pred_iff.mpr
          ⟨hne, fun c hc => by rw [evalClass_compl, ha c hc]; rfl⟩
      · refine rmatches_cat_iff.mpr ⟨['.'], b, rfl, rmatches_single_iff.mpr rfl, ?_⟩
        refine rmatches_cat_iff.mpr ⟨b, [], by simp, ?_, .eps⟩
        exact rmatches_plus_pred_iff.mpr ⟨hbne, hb⟩
    have h1 : RMatches (.pred (.single '*')) ['*'] := rmatches_single_iff.mpr rfl
    have h2 : RMatches (.pred (.single '.')) ['.'] := rmatches_single_iff.mpr rfl
    have := RMatches.cat h1 (RMatches.cat h2 hmid)
    simpa using this

theorem ne_of_firstChar {s t : String} (h : s.data.head? ≠ t.data.head?) : s ≠ t :=
  fun he => h (by rw [he])

theorem dupSiteError_head (s : String) : (dupSiteError s).data.head? = some 'D' := by
  rw [dupSiteError]
  simp only [String.data_append]
  repeat rw [List.head?_append_of_ne_nil _ (by first | decide | simp)]
  decide

theorem prepareSGErrorMessage_head (a b c : String) :
    (prepareSGErrorMessage a b c).data.head? = some 'I' := by
  rw [prepareSGErrorMessage]
  simp only [String.data_append]
  repeat rw [List.head?_append_of_ne_nil _ (by first | decide | simp)]
  decide

theorem siteValueError_head (s m : String) : (siteValueError s m).data.head? = some 'I' := by
  rw [siteValueError]
  simp only [String.data_append]
  repeat rw [List.head?_append_of_ne_nil _ (by first | decide | simp)]
  decide

theorem dupSiteError_inj {s t : String} (h : dupSiteError s = dupSiteError t) : s = t := by
  have h2 := congrArg String.data h
  rw [dupSiteError, dupSiteError] at h2
  rw [String.data_append, String.data_append, String.data_append, String.data_append] at h2
  rw [List.append_assoc, List.append_assoc] at h2
  have h3 := List.append_cancel_left h2
  have h4 := List.append_cancel_right h3
  exact String.ext h4

theorem dupSiteError_ne_creds (s : String) : dupSiteError s ≠ credsFormatError :=
  ne_of_firstChar (by rw [dupSiteError_head]; decide)

theorem prepareSG_ne_creds (a b c : String) : prepareSGErrorMessage a b c ≠ credsFormatError :=
  ne_of_firstChar (by rw [prepareSGErrorMessage_head]; decide)

theorem siteValueError_ne_creds (s m : String) : siteValueError s m ≠ credsFormatError :=
  ne_of_firstChar (by rw [siteValueError_head]; decide)

theorem groupNameError_ne_dup (s : String) : groupNameError ≠ dupSiteError s :=
  (ne_of_firstChar (by rw [dupSiteError_head]; decide)).symm

theorem sitesEmptyError_ne_dup (s : String) : sitesEmptyError ≠ dupSiteError s :=
  (ne_of_firstChar (by rw [dupSiteError_head]; decide)).symm

theorem prepareSG_ne_dup (a b c s : String) : prepareSGErrorMessage a b c ≠ dupSiteError s :=
  ne_of_firstChar (by rw [prepareSGErrorMessage_head, dupSiteError_head]; decide)

theorem creds_ne_dup (s : String) : credsFormatError ≠ dupSiteError s :=
  (dupSiteError_ne_creds s).symm

theorem siteValueError_ne_dup (a m s : String) : siteValueError a m ≠ dupSiteError s :=
  ne_of_firstChar (by rw [siteValueError_head, dupSiteError_head]; decide)

theorem tenantEmptyError_ne_dup (s : String) : tenantEmptyError ≠ dupSiteError s :=
  (ne_of_firstChar (by rw [dupSiteError_head]; decide)).symm

theorem envEmptyError_ne_dup (s : String) : envEmptyError ≠ dupSiteError s :=
  (ne_of_firstChar (by rw [dupSiteError_head]; decide)).symm

theorem siteGroupsEmptyError_ne_dup (s : String) : siteGroupsEmptyError ≠ dupSiteError s :=
  (ne_of_firstChar (by rw [dupSiteError_head]; decide)).symm

theorem addSites_nodup : ∀ (sites ts : List String), (ts ++ sites).Nodup →
    addSites ts sites = (ts ++ sites, []) := by
  intro sites
  induction sites with
  | nil => intro ts _; simp [addSites]
  | cons s rest ih =>
      intro ts h
      have hs : s ∉ ts := by
        intro hmem
        rcases List.nodup_append.mp h with ⟨_, _, hdisj⟩
        exact hdisj hmem (by simp)
      rw [addSites, if_neg hs]
      have h2 : ((ts ++ [s]) ++ rest).Nodup := by simpa using h
      rw [ih (ts ++ [s]) h2]
      simp

theorem addSites_mem (X : String) : ∀ (sites ts : List String),
    X ∈ (addSites ts sites).1 ↔ X ∈ ts ∨ X ∈ sites := by
  intro sites
  induction sites with
  | nil => intro ts; simp [addSites]
  | cons s rest ih =>
      intro ts
      by_cases hs : s ∈ ts
      · rw [addSites, if_pos hs]
        show X ∈ (addSites ts rest).1 ↔ _
        rw [ih ts]
        constructor
        · rintro (h | h)
          · exact Or.inl h
          · exact Or.inr (List.mem_cons_of_mem _ h)
        · rintro (h | h)
          · exact Or.inl h
          · rcases List.mem_cons.mp h with rfl | h'
            · exact Or.inl hs
            · exact Or.inr h'
      · rw [addSites, if_neg hs, ih]
        simp only [List.mem_append, List.mem_singleton, List.mem_cons]
        tauto

theorem addSites_dup_count (X : String) : ∀ (sites ts : List String),
    (addSites ts sites).2.count (dupSiteError X) =
      sites.count X - (if X ∈ ts then 0 else 1) := by
  intro sites
  induction sites with
  | nil => intro ts; simp [addSites]
  | cons s rest ih =>
      intro ts
      by_cases hs : s ∈ ts
      · rw [addSites, if_pos hs]
        show (dupSiteError s :: (addSites ts rest).2).count (dupSiteError X) = _
        rw [List.count_cons, ih ts, List.count_cons]
        simp only [beq_iff_eq]
        by_cases hX : s = X
        · subst hX
          simp [hs]
        · rw [if_neg (fun he => hX (dupSiteError_inj he)), if_neg hX]
          simp
      · rw [addSites, if_neg hs]
        rw [ih (ts ++ [s]), List.count_cons]
        simp only [beq_iff_eq]
        by_cases hX : s = X
        · subst hX
          rw [if_pos (by simp : s ∈ ts ++ [s]), if_pos rfl, if_neg hs]
          omega
        · have hmem : (X ∈ ts ++ [s]) ↔ X ∈ ts := by
            simp only [List.mem_append, List.mem_singleton]
            constructor
            · rintro (h | rfl)
              · exact h
              · exact absurd rfl hX
            · exact Or.inl
          rw [if_neg hX]
          by_cases hXts : X ∈ ts
          · rw [if_pos (hmem.mpr hXts), if_pos hXts]
            omega
          · rw [if_neg (fun h => hXts (hmem.mp h)), if_neg hXts]
            omega

theorem siteChecks_all_true {certMode : String} : ∀ {sites : List String},
    (∀ s ∈ sites, validateSite s certMode = some true) →
    siteChecks certMode sites = some [] := by
  intro sites
  induction sites with
  | nil => intro _; rfl
  | cons s rest ih =>
      intro h
      rw [siteChecks, h s (List.mem_cons_self s rest),
        ih (fun x hx => h x (List.mem_cons_of_mem _ hx))]
      rfl

theorem siteChecks_err_shape {certMode : String} : ∀ {sites es : List String},
    siteChecks certMode sites = some es → ∀ x ∈ es, ∃ s, x = siteValueError s certMode := by
  intro sites
  induction sites with
  | nil =>
      intro es h x hx
      have : es = [] := by simpa [siteChecks] using h.symm
      subst this
      simp at hx
  | cons s rest ih =>
      intro es h x hx
      rw [siteChecks] at h
      cases hv : validateSite s certMode with
      | none => rw [hv] at h; cases h
      | some ok =>
          rw [hv] at h
          cases hr : siteChecks certMode rest with
          | none => rw [hr] at h; cases h
          | some es2 =>
              rw [hr] at h
              have hes : es = (if ok then [] else [siteValueError s certMode]) ++ es2 := by
                simpa using h.symm
              subst hes
              rcases List.mem_append.mp hx with hx1 | hx2
              · by_cases hok : ok
                · rw [if_pos hok] at hx1
                  simp at hx1
                · rw [if_neg hok] at hx1
                  rcases List.mem_singleton.mp hx1 with rfl
                  exact ⟨s, rfl⟩
              · exact ih hr x hx2

theorem addSites_err_shape : ∀ (sites ts : List String),
    ∀ x ∈ (addSites ts sites).2, ∃ s, x = dupSiteError s := by
  intro sites
  induction sites with
  | nil => intro ts x hx; simp [addSites] at hx
  | cons s rest ih =>
      intro ts x hx
      by_cases hs : s ∈ ts
      · rw [addSites, if_pos hs] at hx
        rcases List.mem_cons.mp hx with rfl | hx2
        · exact ⟨s, rfl⟩
        · exact ih ts x hx2
      · rw [addSites, if_neg hs] at hx
        exact ih (ts ++ [s]) x hx

theorem validateSG_eq {ts : List String} {sg : SiteGroupStruct} {e7 : List String}
    (h7 : siteChecks sg.certMode sg.sites = some e7) :
    validateSG ts sg = some
      ((if sg.sites.isEmpty then (ts, [sitesEmptyError]) else addSites ts sg.sites).1,
        (if sg.groupName = "" then [groupNameError] else []) ++
        (if sg.sites.isEmpty then (ts, [sitesEmptyError]) else addSites ts sg.sites).2 ++
        (if validateCertMode sg.certMode then [] else [certModeError sg.certMode]) ++
        (if validateCertProvider sg.certProvider then []
          else [certProviderError sg.certProvider]) ++
        (if validateCertType sg.certType then [] else [certTypeError sg.certType]) ++
        (if validateCertProviderCredentials sg.certProviderCredentials then []
          else [credsFormatError]) ++ e7) := by
  rw [validateSG, h7]

theorem validateSG_none_iff {ts : List String} {sg : SiteGroupStruct} :
    validateSG ts sg = none ↔ siteChecks sg.certMode sg.sites = none := by
  rw [validateSG]
  cases h7 : siteChecks sg.certMode sg.sites <;> simp

theorem count_ifsingle_zero {c : Prop} [Decidable c] {m X : String} (h : m ≠ dupSiteError X) :
    (if c then ([] : List String) else [m]).count (dupSiteError X) = 0 := by
  split
  · rfl
  · rw [List.count_eq_zero]
    intro hmem
    exact h (List.mem_singleton.mp hmem).symm

/-- C9: the Document Validator is deterministic: it is a pure function
of the decoded tenant-record sequence (the only map in the Go code,
`tenantSites`, is used for membership tests only and never iterated), so
running `validateTenants` twice on the same input yields identical
ordered error sequences. -/
theorem validateTenants_deterministic :
    ∀ ts : List TenantStruct, validateTenants ts = validateTenants ts :=
  fun _ => rfl

/-- C2: the Document Validator's result is the concatenation, in input
order, of the per-tenant error sequences (`List.mapM` then
`List.flatten`: no deduplication, and an earlier record's failures never
suppress later records), and the result is empty exactly when every
tenant record individually produces no error. -/
theorem validateTenants_concat :
    (∀ ts : List TenantStruct,
        validateTenants ts = (ts.mapM validateTenant).map List.flatten) ∧
    (∀ ts : List TenantStruct,
        validateTenants ts = some [] ↔ ∀ t ∈ ts, validateTenant t = some []) := by
  constructor
  · intro ts
    induction ts with
    | nil => rw [List.mapM_nil]; rfl
    | cons t rest ih =>
        rw [List.mapM_cons, validateTenants]
        cases h1 : validateTenant t with
        | none => rfl
        | some es =>
            cases h2 : rest.mapM validateTenant with
            | none =>
                have hrest : validateTenants rest = none := by rw [ih, h2]; rfl
                rw [hrest]
                rfl
            | some ess =>
                have hrest : validateTenants rest = some ess.flatten := by rw [ih, h2]; rfl
                rw [hrest]
                rfl
  · intro ts
    induction ts with
    | nil => simp [validateTenants]
    | cons t rest ih =>
        rw [validateTenants]
        cases h1 : validateTenant t with
        | none =>
            rw [List.forall_mem_cons, h1]
            simp
        | some es =>
            cases h2 : validateTenants rest with
            | none =>
                rw [List.forall_mem_cons, h1, ← ih, h2]
                simp
            | some ess =>
                rw [List.forall_mem_cons, h1, ← ih, h2]
                show (some (es ++ ess) = some []) ↔ _
                simp [List.append_eq_nil]

/-- The cert-mode acceptance condition exactly as the claim states it: a
literal `*.` prefix, at least one non-whitespace character, a dot, and a
non-whitespace suffix.  (The code's regex requires the suffix to consist
of word characters `\w`, which is strictly narrower.) -/
def claimCertModeShape (s : String) : Prop :=
  ∃ a b : List Char, s.data = '*' :: '.' :: (a ++ '.' :: b) ∧
    a ≠ [] ∧ (∀ c ∈ a, evalClass goSpace c = false) ∧
    b ≠ [] ∧ (∀ c ∈ b, evalClass goSpace c = false)

/-- C4 counterexample: `*.a.-` satisfies the claim's acceptance
condition (its suffix `-` is non-whitespace), yet `validateCertMode`
rejects it, because the regex requires a word-character suffix and `-`
is not a word character. -/
theorem validateCertMode_claim_counterexample :
    claimCertModeShape "*.a.-" ∧ validateCertMode "*.a.-" = false := by
  constructor
  · exact ⟨['a'], ['-'], by decide, by decide, by decide, by decide, by decide⟩
  · decide

/-- C4 (amended): `validateCertMode` accepts a value exactly when it is
empty, or one of the literals `san` and `classic`, or of wildcard shape:
a literal `*.` prefix, at least one non-whitespace character, a dot, and
a non-empty word-character suffix (`[0-9A-Za-z_]`, per the regex's
`\w+`); every other value is rejected. -/
theorem validateCertMode_iff :
    ∀ certMode : String, validateCertMode certMode = true ↔
      certMode = "" ∨ certMode = "san" ∨ certMode = "classic" ∨ wildcardShape certMode := by
  intro s
  have hc : getAllowedCertModes.contains s = true ↔ s = "san" ∨ s = "classic" := by
    simp [getAllowedCertModes]
  rw [validateCertMode]
  by_cases h1 : s = ""
  · simp [h1]
  · rw [if_neg h1]
    by_cases h2 : getAllowedCertModes.contains s = true
    · rw [if_pos h2]
      rcases hc.mp h2 with h | h <;> simp [h]
    · rw [if_neg h2]
      by_cases h3 : rmatch getCertModeRegex s = true
      · rw [if_pos h3]
        simp only [true_iff]
        exact Or.inr (Or.inr (Or.inr (rmatch_certModeRegex_iff.mp h3)))
      · rw [if_neg h3]
        simp only [Bool.false_eq_true, false_iff]
        rintro (h | h | h | h)
        · exact h1 h
        · exact h2 (hc.mpr (Or.inl h))
        · exact h2 (hc.mpr (Or.inr h))
        · exact h3 (rmatch_certModeRegex_iff.mpr h)

theorem stringLength_data (s : String) : s.length = s.data.length := by
  cases s; rfl

theorem wildcardShape_facts {s : String} (h : wildcardShape s) :
    4 ≤ s.length ∧ s.data.take 2 = ['*', '.'] ∧ 2 ≤ s.data.length := by
  rcases h with ⟨a, b, hs, hne, _, hbne, _⟩
  have hlen : s.data.length = 2 + (a.length + (1 + b.length)) := by
    rw [hs]; simp; omega
  have ha1 : 1 ≤ a.length := List.length_pos.mpr hne
  have hb1 : 1 ≤ b.length := List.length_pos.mpr hbne
  refine ⟨?_, ?_, ?_⟩
  · rw [stringLength_data]
    omega
  · rw [hs]; rfl
  · omega

/-- C10: the suffix slice `certMode[2:]` in `getCertModeSiteRegex` is
only reached when the wildcard pattern has already matched, which
guarantees a string of length at least 4 beginning with `*.`, so the
slice is always in bounds; consequently any panic of `validateSite`
(`none`) comes from the derived pattern failing to compile, never from
the slice. -/
theorem certModeSlice_inBounds :
    (∀ certMode : String, rmatch getCertModeRegex certMode = true →
        4 ≤ certMode.length ∧ certMode.data.take 2 = ['*', '.'] ∧
          (goSlice certMode 2).isSome = true) ∧
    (∀ site certMode : String, validateSite site certMode = none →
        ∃ t, goSlice certMode 2 = some t ∧
          regexCompile (siteRegexPattern (escapeDots t)) = none) := by
  have hfacts : ∀ certMode : String, rmatch getCertModeRegex certMode = true →
      4 ≤ certMode.length ∧ certMode.data.take 2 = ['*', '.'] ∧
        (goSlice certMode 2).isSome = true := by
    intro m hm
    rcases wildcardShape_facts (rmatch_certModeRegex_iff.mp hm) with ⟨h4, htake, h2⟩
    refine ⟨h4, htake, ?_⟩
    rw [goSlice, if_pos h2]
    rfl
  refine ⟨hfacts, ?_⟩
  intro site m h
  rw [validateSite] at h
  by_cases hg : rmatch getCertModeRegex m = true
  · rw [if_pos hg] at h
    rcases hfacts m hg with ⟨_, _, hsome⟩
    rcases Option.isSome_iff_exists.mp hsome with ⟨t, ht⟩
    rw [getCertModeSiteRegex, ht] at h
    cases hcomp : regexCompile (siteRegexPattern (escapeDots t)) with
    | none => exact ⟨t, ht, hcomp⟩
    | some re =>
        rw [show (some t).map (fun u => regexCompile (siteRegexPattern (escapeDots u))) =
          some (regexCompile (siteRegexPattern (escapeDots t))) from rfl, hcomp] at h
        exact absurd h (by simp)
  · rw [if_neg hg] at h
    cases h

/-- C10 witness: the wildcard mode `*.corp.example.com` passes the
guard and has an in-bounds slice; the mode `*.+x.com` passes the guard
but its derived pattern `^([a-zA-Z0-9-]+\.)?+x\.com$` fails to compile,
so `validateSite` aborts there for the compile reason, not the slice. -/
theorem certModeSlice_inBounds_witness :
    (4 ≤ ("*.corp.example.com" : String).length ∧
      "*.corp.example.com".data.take 2 = ['*', '.'] ∧
      (goSlice "*.corp.example.com" 2).isSome = true) ∧
    (∃ t, goSlice "*.+x.com" 2 = some t ∧
      regexCompile (siteRegexPattern (escapeDots t)) = none) :=
  ⟨certModeSlice_inBounds.1 "*.corp.example.com" (by decide),
   certModeSlice_inBounds.2 "x.y" "*.+x.com" (by decide)⟩

/-- The label character class `[a-zA-Z0-9-]` as the parser builds it. -/
def lblClass : CharClass :=
  .union (.union (.union (.union .empty (.range 'a' 'z')) (.range 'A' 'Z')) (.range '0' '9'))
    (.single '-')

/-- The optional leading-label group `([a-zA-Z0-9-]+\.)?` as the parser
builds it. -/
def optLabelRegex : Regex :=
  .alt .eps
    (.cat (.cat (.pred lblClass) (.star (.pred lblClass))) (.cat (.pred (.single '.')) .eps))

/-- The regex that `getCertModeSiteRegex` derives for the cert-mode
`*.corp.example.com`. -/
def corpSiteRegexAst : Regex := .cat optLabelRegex (litRegex "corp.example.com".data)

theorem getCertModeSiteRegex_corp :
    getCertModeSiteRegex "*.corp.example.com" = some (some corpSiteRegexAst) := by decide

/-- C5: under a wildcard cert-mode, a site passes `validateSite` exactly
when it matches the derived pattern (one optional leading label, then
the dot-escaped mode suffix); in particular, under `*.corp.example.com`
the site `eu.corp.example.com` passes and `eu.wrong.com` fails. -/
theorem validateSite_wildcard :
    (∀ certMode site : String, ∀ re : Regex,
        rmatch getCertModeRegex certMode = true →
        getCertModeSiteRegex certMode = some (some re) →
        (validateSite site certMode = some true ↔ rmatch re site = true)) ∧
    validateSite "eu.corp.example.com" "*.corp.example.com" = some true ∧
    validateSite "eu.wrong.com" "*.corp.example.com" = some false := by
  refine ⟨?_, by decide, by decide⟩
  intro certMode site re hg hre
  rw [validateSite, if_pos hg, hre]
  simp

/-- C5 witness: instantiating the wildcard case at
`*.corp.example.com` and `eu.corp.example.com` with the concrete
derived regex. -/
theorem validateSite_wildcard_witness :
    validateSite "eu.corp.example.com" "*.corp.example.com" = some true ↔
      rmatch corpSiteRegexAst "eu.corp.example.com" = true :=
  validateSite_wildcard.1 "*.corp.example.com" "eu.corp.example.com" corpSiteRegexAst
    (by decide) (by decide)

theorem rmatches_optLabel_iff {l : List Char} :
    RMatches optLabelRegex l ↔
      l = [] ∨ ∃ lab, lab ≠ [] ∧ (∀ c ∈ lab, evalClass lblClass c = true) ∧ l = lab ++ ['.'] := by
  unfold optLabelRegex
  rw [rmatches_alt_iff, rmatches_eps_iff]
  constructor
  · rintro (h | h)
    · exact Or.inl h
    · rcases rmatches_cat_iff.mp h with ⟨x, y, rfl, hx, hy⟩
      rcases rmatches_plus_pred_iff.mp hx with ⟨hxne, hxall⟩
      rcases rmatches_cat_iff.mp hy with ⟨y1, y2, rfl, hy1, hy2⟩
      rcases rmatches_single_iff.mp hy1 with rfl
      rcases rmatches_eps_iff.mp hy2 with rfl
      exact Or.inr ⟨x, hxne, hxall, by simp⟩
  · rintro (rfl | ⟨lab, hne, hall, rfl⟩)
    · exact Or.inl rfl
    · refine Or.inr (rmatches_cat_iff.mpr ⟨lab, ['.'], rfl, ?_, ?_⟩)
      · exact rmatches_plus_pred_iff.mpr ⟨hne, hall⟩
      · exact rmatches_cat_iff.mpr ⟨['.'], [], rfl, rmatches_single_iff.mpr rfl, .eps⟩

theorem rmatches_corpSite_iff {l : List Char} :
    RMatches corpSiteRegexAst l ↔
      l = "corp.example.com".data ∨
      ∃ lab, lab ≠ [] ∧ (∀ c ∈ lab, evalClass lblClass c = true) ∧
        l = lab ++ '.' :: "corp.example.com".data := by
  unfold corpSiteRegexAst
  rw [rmatches_cat_iff]
  constructor
  · rintro ⟨la, lb, rfl, hla, hlb⟩
    rcases rmatches_lit_iff.mp hlb with rfl
    rcases rmatches_optLabel_iff.mp hla with rfl | ⟨lab, hne, hall, rfl⟩
    · exact Or.inl (by simp)
    · exact Or.inr ⟨lab, hne, hall, by simp⟩
  · rintro (rfl | ⟨lab, hne, hall, rfl⟩)
    · exact ⟨[], _, by simp, rmatches_optLabel_iff.mpr (Or.inl rfl), rmatches_lit_iff.mpr rfl⟩
    · refine ⟨lab ++ ['.'], _, by simp, ?_, rmatches_lit_iff.mpr rfl⟩
      exact rmatches_optLabel_iff.mpr (Or.inr ⟨lab, hne, hall, rfl⟩)

/-- C8 counterexample: under the wildcard cert-mode `*.\S+.com` (which
matches the wildcard pattern, its suffix being `\S+.com`), the site
`a.b.\S+.com` — two labels prepended to the mode's suffix — passes
site-vs-mode validation: the unescaped `\S+` kept in the derived
pattern absorbs the extra label, so the claim's universal statement
fails. -/
theorem wildcardSite_depth_counterexample :
    rmatch getCertModeRegex "*.\\S+.com" = true ∧
    goSlice "*.\\S+.com" 2 = some "\\S+.com" ∧
    "a.b.\\S+.com" = "a" ++ "." ++ "b" ++ "." ++ "\\S+.com" ∧
    validateSite "a.b.\\S+.com" "*.\\S+.com" = some true :=
  ⟨by decide, by decide, by decide, by decide⟩

/-- C8 (amended): for a wildcard cert-mode whose suffix is free of
regex metacharacters — here the claim's own example
`*.corp.example.com` — the derived pattern admits at most one optional
leading label: every site formed by prepending two labels (non-empty
`[a-zA-Z0-9-]` runs) to the mode's suffix fails site-vs-mode
validation.  (For metacharacter-bearing suffixes such as `*.\S+.com`
this fails, see the counterexample.) -/
theorem wildcardSite_twoLabels_fail :
    ∀ l1 l2 : List Char,
      l1 ≠ [] → (∀ c ∈ l1, evalClass lblClass c = true) →
      l2 ≠ [] → (∀ c ∈ l2, evalClass lblClass c = true) →
      validateSite ⟨l1 ++ ('.' :: (l2 ++ ('.' :: "corp.example.com".data)))⟩ "*.corp.example.com"
        = some false := by
  intro l1 l2 h1ne h1all h2ne h2all
  have hg : rmatch getCertModeRegex "*.corp.example.com" = true := by decide
  rw [validateSite, if_pos hg, getCertModeSiteRegex_corp]
  have hm : rmatch corpSiteRegexAst
      ⟨l1 ++ ('.' :: (l2 ++ ('.' :: "corp.example.com".data)))⟩ = false := by
    rw [Bool.eq_false_iff]
    intro hmat
    rw [rmatch_iff] at hmat
    have hdata : (⟨l1 ++ ('.' :: (l2 ++ ('.' :: "corp.example.com".data)))⟩ : String).data =
        l1 ++ ('.' :: (l2 ++ ('.' :: "corp.example.com".data))) := rfl
    rw [hdata] at hmat
    rcases rmatches_corpSite_iff.mp hmat with heq | ⟨lab, hne, hall, heq⟩
    · have hL := congrArg List.length heq
      simp only [List.length_append, List.length_cons] at hL
      omega
    · have hL := congrArg List.length heq
      simp only [List.length_append, List.length_cons] at hL
      have hpre1 : l1 <+: (l1 ++ ('.' :: (l2 ++ ('.' :: "corp.example.com".data)))) :=
        List.prefix_append _ _
      have hpre2 : lab <+: (l1 ++ ('.' :: (l2 ++ ('.' :: "corp.example.com".data)))) := by
        rw [heq]; exact List.prefix_append _ _
      rcases List.prefix_or_prefix_of_prefix hpre1 hpre2 with hp | hp
      · rcases hp with ⟨t, ht⟩
        subst ht
        rw [List.append_assoc] at heq
        have heq2 := List.append_cancel_left heq
        cases t with
        | nil =>
            simp only [List.nil_append] at heq2
            injection heq2 with _ htail
            have hL2 := congrArg List.length htail
            simp only [List.length_append, List.length_cons] at hL2
            omega
        | cons t0 trest =>
            injection heq2 with ht0 _
            subst ht0
            have hdot : ('.' : Char) ∈ l1 ++ '.' :: trest := by simp
            exact absurd (hall '.' hdot) (by decide)
      · have hple := hp.length_le
        have h2len : 1 ≤ l2.length := List.length_pos.mpr h2ne
        omega
  rw [show (match some (some corpSiteRegexAst) with
      | none => (none : Option Bool)
      | some none => none
      | some (some re) => some (rmatch re
          (⟨l1 ++ ('.' :: (l2 ++ ('.' :: "corp.example.com".data)))⟩ : String))) =
      some (rmatch corpSiteRegexAst
        (⟨l1 ++ ('.' :: (l2 ++ ('.' :: "corp.example.com".data)))⟩ : String)) from rfl, hm]

/-- C8 witness: the amended statement instantiated at the labels `a`
and `b`: the site `a.b.corp.example.com` fails under
`*.corp.example.com`. -/
theorem wildcardSite_twoLabels_fail_witness :
    validateSite ⟨['a'] ++ ('.' :: (['b'] ++ ('.' :: "corp.example.com".data)))⟩
      "*.corp.example.com" = some false :=
  wildcardSite_twoLabels_fail ['a'] ['b'] (by decide) (by decide) (by decide) (by decide)

theorem mem_ifsingle {c : Prop} [Decidable c] {m x : String}
    (h : x ∈ (if c then ([] : List String) else [m])) : x = m := by
  rcases Decidable.em c with hc | hc
  · rw [if_pos hc] at h; simp at h
  · rw [if_neg hc] at h; exact List.mem_singleton.mp h

theorem mem_ifsingle' {c : Prop} [Decidable c] {m x : String}
    (h : x ∈ (if c then [m] else ([] : List String))) : x = m := by
  rcases Decidable.em c with hc | hc
  · rw [if_pos hc] at h; exact List.mem_singleton.mp h
  · rw [if_neg hc] at h; simp at h

/-- Site group used as the C3 counterexample: well-formed except that
its credential bundle is present with all three sub-fields empty. -/
def sgEmptyCreds : SiteGroupStruct :=
  { groupName := "g1", sites := ["a.example.com"], certMode := "",
    certProvider := "", certType := "", certProviderCredentials := some ⟨"", "", ""⟩ }

/-- Number of non-empty sub-fields of a credential bundle. -/
def numNonemptyCreds (c : EABCredentials) : Nat :=
  (if c.email = "" then 0 else 1) + (if c.kid = "" then 0 else 1) +
    (if c.hmacKey = "" then 0 else 1)

/-- C3 counterexample: a bundle that is present with zero non-empty
sub-fields (so not "exactly one or two") still fails the credential
validator, and the credential-format error is recorded for its site
group; the claim's "if and only if" is therefore false on the code. -/
theorem credsError_claim_counterexample :
    numNonemptyCreds ⟨"", "", ""⟩ = 0 ∧
    validateCertProviderCredentials (some ⟨"", "", ""⟩) = false ∧
    validateSG [] sgEmptyCreds = some (["a.example.com"], [credsFormatError]) :=
  ⟨by decide, by decide, by decide⟩

/-- C3 (amended): a credential-format error is recorded for a site
group exactly when the bundle is present with at least one of
{email, kid, hmac_key} empty (zero, one, or two of them non-empty); a
bundle that is absent, or present with all three non-empty, never
yields the error. -/
theorem credsError_iff :
    (∀ c : Option EABCredentials,
        validateCertProviderCredentials c = false ↔
          ∃ b, c = some b ∧ (b.email = "" ∨ b.kid = "" ∨ b.hmacKey = "")) ∧
    (∀ (ts : List String) (sg : SiteGroupStruct) (p : List String × List String),
        validateSG ts sg = some p →
        (credsFormatError ∈ p.2 ↔
          validateCertProviderCredentials sg.certProviderCredentials = false)) := by
  constructor
  · intro c
    cases c with
    | none => simp [validateCertProviderCredentials]
    | some b =>
        simp only [validateCertProviderCredentials, Bool.and_eq_false_iff,
          decide_eq_false_iff_not, not_not, Option.some.injEq]
        constructor
        · rintro ((h | h) | h)
          · exact ⟨b, rfl, Or.inl h⟩
          · exact ⟨b, rfl, Or.inr (Or.inr h)⟩
          · exact ⟨b, rfl, Or.inr (Or.inl h)⟩
        · rintro ⟨b', rfl, (h | h | h)⟩
          · exact Or.inl (Or.inl h)
          · exact Or.inr h
          · exact Or.inl (Or.inr h)
  · intro ts sg p h
    cases h7 : siteChecks sg.certMode sg.sites with
    | none => rw [validateSG, h7] at h; cases h
    | some e7 =>
        rw [validateSG_eq h7] at h
        injection h with h
        subst h
        have hsplit : credsFormatError ∈
            (if validateCertProviderCredentials sg.certProviderCredentials then []
              else [credsFormatError]) ↔
            validateCertProviderCredentials sg.certProviderCredentials = false := by
          by_cases hv : validateCertProviderCredentials sg.certProviderCredentials = true
          · simp [hv]
          · rw [if_neg hv]
            simp [Bool.eq_false_iff, hv]
        simp only [List.mem_append]
        constructor
        · rintro ((((((h1 | h2) | h3) | h4) | h5) | h6) | hmem7)
          · exact absurd (mem_ifsingle' h1) (by decide)
          · by_cases hse : sg.sites.isEmpty = true
            · rw [if_pos hse] at h2
              exact absurd (List.mem_singleton.mp h2) (by decide)
            · rw [if_neg hse] at h2
              rcases addSites_err_shape sg.sites ts _ h2 with ⟨s, heq⟩
              exact absurd heq.symm (dupSiteError_ne_creds s)
          · have heq := mem_ifsingle h3
            rw [certModeError] at heq
            exact absurd heq.symm (prepareSG_ne_creds _ _ _)
          · have heq := mem_ifsingle h4
            rw [certProviderError] at heq
            exact absurd heq.symm (prepareSG_ne_creds _ _ _)
          · have heq := mem_ifsingle h5
            rw [certTypeError] at heq
            exact absurd heq.symm (prepareSG_ne_creds _ _ _)
          · exact hsplit.mp h6
          · rcases siteChecks_err_shape h7 _ hmem7 with ⟨s, heq⟩
            exact absurd heq.symm (siteValueError_ne_creds s sg.certMode)
        · intro hv
          exact Or.inl (Or.inr (hsplit.mpr hv))

/-- C3 witness: the amended statement instantiated at the all-empty
present bundle and its site group. -/
theorem credsError_iff_witness :
    (validateCertProviderCredentials (some ⟨"", "", ""⟩) = false ↔
      ∃ b, some (⟨"", "", ""⟩ : EABCredentials) = some b ∧
        (b.email = "" ∨ b.kid = "" ∨ b.hmacKey = "")) ∧
    (credsFormatError ∈ (["a.example.com"], [credsFormatError]).2 ↔
      validateCertProviderCredentials sgEmptyCreds.certProviderCredentials = false) :=
  ⟨credsError_iff.1 (some ⟨"", "", ""⟩),
   credsError_iff.2 [] sgEmptyCreds (["a.example.com"], [credsFormatError]) (by decide)⟩

/-- C7: empty-collection handling is asymmetric.  A tenant with an empty
`siteGroups` sequence records the tenant-level field errors plus exactly
one missing-site-groups error and nothing else (no site-group check
runs); a site group with an empty `sites` sequence records the
missing-sites error and still runs the cert-mode, provider, type and
credential checks. -/
theorem emptyCollections_asymmetric :
    (∀ t : TenantStruct, t.siteGroups = [] →
        validateTenant t = some ((if t.tenant = "" then [tenantEmptyError] else []) ++
          (if t.env = "" then [envEmptyError] else []) ++ [siteGroupsEmptyError])) ∧
    (∀ (ts : List String) (sg : SiteGroupStruct), sg.sites = [] →
        validateSG ts sg = some (ts,
          (if sg.groupName = "" then [groupNameError] else []) ++ [sitesEmptyError] ++
          (if validateCertMode sg.certMode then [] else [certModeError sg.certMode]) ++
          (if validateCertProvider sg.certProvider then []
            else [certProviderError sg.certProvider]) ++
          (if validateCertType sg.certType then [] else [certTypeError sg.certType]) ++
          (if validateCertProviderCredentials sg.certProviderCredentials then []
            else [credsFormatError]))) := by
  constructor
  · intro t ht
    rw [validateTenant, ht]
    rfl
  · intro ts sg hs
    have h7 : siteChecks sg.certMode sg.sites = some [] := by rw [hs]; rfl
    rw [validateSG_eq h7, hs]
    simp

/-- Tenant with no site groups, for the C7 witness. -/
def tenantNoSGs : TenantStruct := { tenant := "t1", env := "prod", siteGroups := [] }

/-- Site group with no sites, for the C7 witness. -/
def sgNoSites : SiteGroupStruct :=
  { groupName := "g1", sites := [], certMode := "", certProvider := "",
    certType := "", certProviderCredentials := none }

/-- C7 witness: a tenant with no site groups and a site group with no
sites, instantiating both halves. -/
theorem emptyCollections_asymmetric_witness :
    validateTenant tenantNoSGs =
      some ((if tenantNoSGs.tenant = "" then [tenantEmptyError] else []) ++
        (if tenantNoSGs.env = "" then [envEmptyError] else []) ++ [siteGroupsEmptyError]) ∧
    validateSG [] sgNoSites =
      some ([],
        (if sgNoSites.groupName = "" then [groupNameError] else []) ++ [sitesEmptyError] ++
        (if validateCertMode sgNoSites.certMode then []
          else [certModeError sgNoSites.certMode]) ++
        (if validateCertProvider sgNoSites.certProvider then []
          else [certProviderError sgNoSites.certProvider]) ++
        (if validateCertType sgNoSites.certType then []
          else [certTypeError sgNoSites.certType]) ++
        (if validateCertProviderCredentials sgNoSites.certProviderCredentials then []
          else [credsFormatError])) :=
  ⟨emptyCollections_asymmetric.1 tenantNoSGs rfl, emptyCollections_asymmetric.2 [] sgNoSites rfl⟩

/-- Concatenation of all site lists of a tenant's site groups, in
order. -/
def joinSites (sgs : List SiteGroupStruct) : List String :=
  (sgs.map SiteGroupStruct.sites).flatten

/-- The claim's well-formedness conditions for one site group (the
tenant-wide site uniqueness is stated separately). -/
def goodSG (sg : SiteGroupStruct) : Prop :=
  sg.groupName ≠ "" ∧ sg.sites ≠ [] ∧
  validateCertMode sg.certMode = true ∧
  validateCertProvider sg.certProvider = true ∧
  validateCertType sg.certType = true ∧
  validateCertProviderCredentials sg.certProviderCredentials = true ∧
  ∀ site ∈ sg.sites, validateSite site sg.certMode = some true

instance (sg : SiteGroupStruct) : Decidable (goodSG sg) := by
  unfold goodSG
  exact inferInstance

theorem validateSG_clean {ts : List String} {sg : SiteGroupStruct} (hg : goodSG sg)
    (hnd : (ts ++ sg.sites).Nodup) :
    validateSG ts sg = some (ts ++ sg.sites, []) := by
  rcases hg with ⟨h1, h2, h3, h4, h5, h6, h7⟩
  rw [validateSG_eq (siteChecks_all_true h7)]
  rw [if_neg h1, if_pos h3, if_pos h4, if_pos h5, if_pos h6]
  rw [if_neg (by simp [List.isEmpty_iff, h2] : ¬ sg.sites.isEmpty = true)]
  rw [addSites_nodup sg.sites ts hnd]
  simp

theorem validateSGsAux_clean : ∀ (sgs : List SiteGroupStruct) (ts : List String),
    (∀ sg ∈ sgs, goodSG sg) → (ts ++ joinSites sgs).Nodup →
    validateSGsAux ts sgs = some (ts ++ joinSites sgs, []) := by
  intro sgs
  induction sgs with
  | nil => intro ts _ _; simp [validateSGsAux, joinSites]
  | cons sg rest ih =>
      intro ts hall hnd
      have hassoc : ts ++ joinSites (sg :: rest) = (ts ++ sg.sites) ++ joinSites rest := by
        simp [joinSites]
      rw [hassoc] at hnd
      have hnd1 : (ts ++ sg.sites).Nodup := hnd.of_append_left
      rw [validateSGsAux, validateSG_clean (hall sg (by simp)) hnd1]
      show (match validateSGsAux (ts ++ sg.sites) rest with
        | none => none
        | some (ts3, es2) => some (ts3, [] ++ es2)) = _
      rw [ih (ts ++ sg.sites) (fun g hg => hall g (by simp [hg])) hnd, hassoc]
      simp

/-- C1: a document whose tenant records all have a non-empty tenant id,
a non-empty env, and at least one site group, with every group
well-formed (non-empty name, non-empty sites each passing the
site-vs-mode check, valid cert-mode/provider/type, absent-or-complete
credentials) and the sites unique across each whole tenant, validates
with an empty error sequence. -/
theorem wellformed_no_errors :
    ∀ ts : List TenantStruct,
      (∀ t ∈ ts, t.tenant ≠ "" ∧ t.env ≠ "" ∧ t.siteGroups ≠ [] ∧
        (∀ sg ∈ t.siteGroups, goodSG sg) ∧ (joinSites t.siteGroups).Nodup) →
      validateTenants ts = some [] := by
  intro ts h
  induction ts with
  | nil => rfl
  | cons t rest ih =>
      rcases h t (by simp) with ⟨h1, h2, h3, h4, h5⟩
      have htv : validateTenant t = some [] := by
        rw [validateTenant, if_neg h1, if_neg h2]
        rw [if_neg (by simp [List.isEmpty_iff, h3] : ¬ t.siteGroups.isEmpty = true)]
        rw [validateSGs, validateSGsAux_clean t.siteGroups [] h4 (by simpa using h5)]
        rfl
      rw [validateTenants, htv, ih (fun x hx => h x (by simp [hx]))]
      rfl

/-- The spec's own success example: tenant `t1`/`prod` with one
well-formed site group. -/
def exampleTenant : TenantStruct :=
  { tenant := "t1", env := "prod",
    siteGroups := [{ groupName := "g1", sites := ["a.example.com"], certMode := "",
                     certProvider := "letsencrypt", certType := "ec-256",
                     certProviderCredentials := none }] }

/-- C1 witness: the spec's example document validates with no errors. -/
theorem wellformed_no_errors_witness : validateTenants [exampleTenant] = some [] :=
  wellformed_no_errors [exampleTenant] (by decide)

theorem count_ifsingle_zero' {c : Prop} [Decidable c] {m X : String} (h : m ≠ dupSiteError X) :
    (if c then [m] else ([] : List String)).count (dupSiteError X) = 0 := by
  split
  · rw [List.count_eq_zero]
    intro hmem
    exact h (List.mem_singleton.mp hmem).symm
  · rfl

theorem certModeError_ne_dup (m s : String) : certModeError m ≠ dupSiteError s := by
  rw [certModeError]; exact prepareSG_ne_dup _ _ _ _

theorem certProviderError_ne_dup (m s : String) : certProviderError m ≠ dupSiteError s := by
  rw [certProviderError]; exact prepareSG_ne_dup _ _ _ _

theorem certTypeError_ne_dup (m s : String) : certTypeError m ≠ dupSiteError s := by
  rw [certTypeError]; exact prepareSG_ne_dup _ _ _ _

theorem count_dup_validateSG (X : String) {ts : List String} {sg : SiteGroupStruct}
    {p : List String × List String} (h : validateSG ts sg = some p) :
    p.2.count (dupSiteError X) = sg.sites.count X - (if X ∈ ts then 0 else 1) ∧
    (X ∈ p.1 ↔ X ∈ ts ∨ X ∈ sg.sites) := by
  cases h7 : siteChecks sg.certMode sg.sites with
  | none => rw [validateSG, h7] at h; cases h
  | some e7 =>
      rw [validateSG_eq h7] at h
      injection h with h
      subst h
      have he7 : e7.count (dupSiteError X) = 0 := by
        rw [List.count_eq_zero]
        intro hmem
        rcases siteChecks_err_shape h7 _ hmem with ⟨s, heq⟩
        exact siteValueError_ne_dup s sg.certMode X heq.symm
      by_cases hse : sg.sites.isEmpty = true
      · have hnil : sg.sites = [] := List.isEmpty_iff.mp hse
        rw [if_pos hse]
        constructor
        · simp only [List.count_append]
          rw [count_ifsingle_zero' (groupNameError_ne_dup X),
            count_ifsingle_zero (certModeError_ne_dup sg.certMode X),
            count_ifsingle_zero (certProviderError_ne_dup sg.certProvider X),
            count_ifsingle_zero (certTypeError_ne_dup sg.certType X),
            count_ifsingle_zero (creds_ne_dup X), he7]
          have hmid : ([sitesEmptyError] : List String).count (dupSiteError X) = 0 := by
            rw [List.count_eq_zero]
            intro hmem
            exact sitesEmptyError_ne_dup X (List.mem_singleton.mp hmem).symm
          rw [hmid, hnil]
          simp
        · rw [hnil]
          simp
      · rw [if_neg hse]
        constructor
        · simp only [List.count_append]
          rw [count_ifsingle_zero' (groupNameError_ne_dup X),
            addSites_dup_count X sg.sites ts,
            count_ifsingle_zero (certModeError_ne_dup sg.certMode X),
            count_ifsingle_zero (certProviderError_ne_dup sg.certProvider X),
            count_ifsingle_zero (certTypeError_ne_dup sg.certType X),
            count_ifsingle_zero (creds_ne_dup X), he7]
          omega
        · exact addSites_mem X sg.sites ts

theorem count_dup_validateSGsAux (X : String) : ∀ (sgs : List SiteGroupStruct)
    (ts : List String) (p : List String × List String),
    validateSGsAux ts sgs = some p →
    p.2.count (dupSiteError X) = (joinSites sgs).count X - (if X ∈ ts then 0 else 1) ∧
    (X ∈ p.1 ↔ X ∈ ts ∨ X ∈ joinSites sgs) := by
  intro sgs
  induction sgs with
  | nil =>
      intro ts p h
      rw [validateSGsAux] at h
      injection h with h
      subst h
      simp [joinSites]
  | cons sg rest ih =>
      intro ts p h
      rw [validateSGsAux] at h
      cases h1 : validateSG ts sg with
      | none => rw [h1] at h; cases h
      | some q =>
          rcases q with ⟨q1, q2⟩
          rw [h1] at h
          have h' : (match validateSGsAux q1 rest with
              | none => none
              | some (ts3, es2) => some (ts3, q2 ++ es2)) = some p := h
          cases h2 : validateSGsAux q1 rest with
          | none => rw [h2] at h'; cases h'
          | some r =>
              rcases r with ⟨r1, r2⟩
              rw [h2] at h'
              injection h' with h'
              subst h'
              rcases count_dup_validateSG X h1 with ⟨hc1, hm1⟩
              rcases ih q1 (r1, r2) h2 with ⟨hc2, hm2⟩
              have hjoin : joinSites (sg :: rest) = sg.sites ++ joinSites rest := by
                simp [joinSites]
              constructor
              · show (q2 ++ r2).count (dupSiteError X) = _
                rw [List.count_append, hc1, hc2, hjoin, List.count_append]
                by_cases hts : X ∈ ts
                · rw [if_pos hts, if_pos (hm1.mpr (Or.inl hts))]
                  simp
                · rw [if_neg hts]
                  by_cases hsx : X ∈ sg.sites
                  · rw [if_pos (hm1.mpr (Or.inr hsx))]
                    have hpos : 0 < sg.sites.count X := List.count_pos_iff.mpr hsx
                    omega
                  · rw [if_neg (fun hq => (hm1.mp hq).elim hts hsx)]
                    have hz : sg.sites.count X = 0 := List.count_eq_zero.mpr hsx
                    omega
              · show X ∈ r1 ↔ _
                rw [hm2, hm1, hjoin]
                simp only [List.mem_append]
                tauto

/-- C6: duplicate-site detection is scoped to the whole tenant: any
tenant whose site groups together list `a.example.com` exactly twice —
in particular once in each of two different groups, in either order —
produces exactly one duplicate-site error for it. -/
theorem duplicateSite_tenantScoped :
    ∀ (t : TenantStruct) (es : List String),
      validateTenant t = some es →
      (joinSites t.siteGroups).count "a.example.com" = 2 →
      es.count (dupSiteError "a.example.com") = 1 := by
  intro t es h hcount
  by_cases hsg : t.siteGroups.isEmpty = true
  · rw [List.isEmpty_iff.mp hsg] at hcount
    simp [joinSites] at hcount
  · rw [validateTenant, if_neg hsg, validateSGs] at h
    cases haux : validateSGsAux [] t.siteGroups with
    | none => rw [haux] at h; cases h
    | some p =>
        rw [haux] at h
        injection h with h
        subst h
        rcases count_dup_validateSGsAux "a.example.com" t.siteGroups [] p haux with ⟨hc, _⟩
        simp only [List.count_append]
        rw [count_ifsingle_zero' (tenantEmptyError_ne_dup _),
          count_ifsingle_zero' (envEmptyError_ne_dup _), hc, hcount]
        simp

/-- Tenant for the C6 witness: `a.example.com` appears once in each of
two different site groups. -/
def dupTenant : TenantStruct :=
  { tenant := "t1", env := "prod",
    siteGroups :=
      [{ groupName := "g1", sites := ["a.example.com", "b.example.com"], certMode := "",
         certProvider := "", certType := "", certProviderCredentials := none },
       { groupName := "g2", sites := ["a.example.com"], certMode := "",
         certProvider := "", certType := "", certProviderCredentials := none }] }

/-- C6 witness: the two-group tenant yields exactly one duplicate error
for `a.example.com`. -/
theorem duplicateSite_tenantScoped_witness :
    ([dupSiteError "a.example.com"] : List String).count (dupSiteError "a.example.com") = 1 :=
  duplicateSite_tenantScoped dupTenant [dupSiteError "a.example.com"] (by decide) (by decide)
